import Mathlib

/-!
Verification of the shellflow PTY supervisor and watcher subsystem
(`src-tauri/src/pty.rs`, `src-tauri/src/watcher.rs`).

The Rust code is shallowly embedded: byte buffers are `List Nat`,
registry hash maps are association lists, and the stateful routines
become pure state-passing functions.  OS-level facts (which pids are
alive, which paths are files, the direct children of a pid) are
oracle parameters.
-/

namespace Shellflow

/-! ## UTF-8 model (the pump's chunk-boundary logic, pty.rs:400-464)

The reader thread keeps `utf8_buf`, appends each read, computes
`valid_up_to` via `std::str::from_utf8`, emits the valid portion when
nonempty and retains the rest.  We model `valid_up_to` as the length of
the longest prefix that parses as a sequence of complete UTF-8
scalar-value encodings, with exactly the acceptance ranges of Rust's
`str::from_utf8`. -/

/-- Continuation byte test: `0x80..=0xBF`. -/
def isCont (b : Nat) : Bool := 0x80 ≤ b && b ≤ 0xBF

/-- Lower bound of the first continuation byte, depending on the lead byte
(`0xE0` and `0xF0` exclude overlong forms). -/
def contLo (b0 : Nat) : Nat := if b0 = 0xE0 then 0xA0 else if b0 = 0xF0 then 0x90 else 0x80

/-- Upper bound of the first continuation byte, depending on the lead byte
(`0xED` excludes surrogates, `0xF4` caps at U+10FFFF). -/
def contHi (b0 : Nat) : Nat := if b0 = 0xED then 0x9F else if b0 = 0xF4 then 0x8F else 0xBF

/-- First-continuation-byte test for lead byte `b0`. -/
def contOK (b0 b : Nat) : Bool := contLo b0 ≤ b && b ≤ contHi b0

/-- Length of the complete UTF-8 scalar-value encoding at the head of `l`,
or `none` if the head is invalid or incomplete.  Mirrors the acceptance
ranges of Rust's `str::from_utf8`. -/
def utf8First : List Nat → Option Nat
  | [] => none
  | b0 :: tail =>
    if b0 < 0x80 then some 1
    else if b0 < 0xC2 then none
    else if b0 ≤ 0xDF then
      match tail with
      | b1 :: _ => if isCont b1 then some 2 else none
      | [] => none
    else if b0 ≤ 0xEF then
      match tail with
      | b1 :: b2 :: _ => if contOK b0 b1 && isCont b2 then some 3 else none
      | _ => none
    else if b0 ≤ 0xF4 then
      match tail with
      | b1 :: b2 :: b3 :: _ => if contOK b0 b1 && isCont b2 && isCont b3 then some 4 else none
      | _ => none
    else none

/-- Fuel-indexed longest-valid-prefix length; `fuel ≥ l.length` is enough. -/
def utf8ValidUpToF : Nat → List Nat → Nat
  | 0, _ => 0
  | fuel + 1, l =>
    match utf8First l with
    | none => 0
    | some k => k + utf8ValidUpToF fuel (l.drop k)

/-- Length of the longest valid-UTF-8 prefix of `l`
(Rust `Utf8Error::valid_up_to`, pty.rs:441-444). -/
def utf8ValidUpTo (l : List Nat) : Nat := utf8ValidUpToF l.length l

/-- `l` is entirely valid UTF-8. -/
abbrev Utf8Valid (l : List Nat) : Prop := utf8ValidUpTo l = l.length

theorem utf8First_nil : utf8First [] = none := rfl

theorem utf8First_bounds {l : List Nat} {k : Nat} (h : utf8First l = some k) :
    1 ≤ k ∧ k ≤ 4 ∧ k ≤ l.length := by
  match l with
  | [] => simp [utf8First] at h
  | b0 :: tail =>
    simp only [utf8First] at h
    repeat' split at h
    all_goals simp_all
    all_goals omega

theorem utf8First_take_append {l : List Nat} {k : Nat} (m : List Nat) (h : utf8First l = some k) :
    utf8First (l.take k ++ m) = some k := by
  match l with
  | [] => simp [utf8First] at h
  | b0 :: tail =>
    simp only [utf8First] at h
    repeat' split at h
    all_goals cases h
    all_goals simp only [List.take, List.cons_append, List.nil_append, utf8First]
    all_goals (repeat' split)
    all_goals simp_all

theorem utf8First_append {a : List Nat} {k : Nat} (b : List Nat) (h : utf8First a = some k) :
    utf8First (a ++ b) = some k := by
  have h2 := utf8First_take_append (a.drop k ++ b) h
  rwa [← List.append_assoc, List.take_append_drop] at h2

theorem utf8ValidUpToF_congr :
    ∀ f1 f2 l, l.length ≤ f1 → l.length ≤ f2 → utf8ValidUpToF f1 l = utf8ValidUpToF f2 l := by
  intro f1
  induction f1 with
  | zero =>
    intro f2 l h1 _
    have hl : l = [] := List.length_eq_zero.mp (Nat.le_zero.mp h1)
    subst hl
    cases f2 with
    | zero => rfl
    | succ m => simp [utf8ValidUpToF, utf8First]
  | succ n ih =>
    intro f2 l h1 h2
    cases f2 with
    | zero =>
      have hl : l = [] := List.length_eq_zero.mp (Nat.le_zero.mp h2)
      subst hl
      simp [utf8ValidUpToF, utf8First]
    | succ m =>
      cases hf : utf8First l with
      | none => simp [utf8ValidUpToF, hf]
      | some k =>
        obtain ⟨hk1, _, hkl⟩ := utf8First_bounds hf
        simp only [utf8ValidUpToF, hf]
        have hd : (l.drop k).length = l.length - k := by simp
        have := ih m (l.drop k) (by omega) (by omega)
        omega

theorem utf8ValidUpTo_none {l : List Nat} (h : utf8First l = none) : utf8ValidUpTo l = 0 := by
  unfold utf8ValidUpTo
  cases l with
  | nil => rfl
  | cons b t => simp [utf8ValidUpToF, h]

theorem utf8ValidUpTo_some {l : List Nat} {k : Nat} (h : utf8First l = some k) :
    utf8ValidUpTo l = k + utf8ValidUpTo (l.drop k) := by
  obtain ⟨hk1, _, hkl⟩ := utf8First_bounds h
  unfold utf8ValidUpTo
  cases l with
  | nil => simp [utf8First] at h
  | cons b t =>
    show utf8ValidUpToF (t.length + 1) (b :: t) = _
    simp only [utf8ValidUpToF, h]
    congr 1
    apply utf8ValidUpToF_congr
    · simp at hkl ⊢
      omega
    · exact Nat.le_refl _

theorem utf8ValidUpTo_le (l : List Nat) : utf8ValidUpTo l ≤ l.length := by
  generalize hn : l.length = n
  induction n using Nat.strong_induction_on generalizing l with
  | _ n ih =>
    subst hn
    cases hf : utf8First l with
    | none => rw [utf8ValidUpTo_none hf]; exact Nat.zero_le _
    | some k =>
      obtain ⟨hk1, _, hkl⟩ := utf8First_bounds hf
      rw [utf8ValidUpTo_some hf]
      have hd : (l.drop k).length = l.length - k := by simp
      have := ih (l.drop k).length (by omega) (l.drop k) rfl
      omega

theorem utf8ValidUpTo_take_valid (l : List Nat) : Utf8Valid (l.take (utf8ValidUpTo l)) := by
  generalize hn : l.length = n
  induction n using Nat.strong_induction_on generalizing l with
  | _ n ih =>
    subst hn
    cases hf : utf8First l with
    | none =>
      rw [utf8ValidUpTo_none hf]
      rfl
    | some k =>
      obtain ⟨hk1, _, hkl⟩ := utf8First_bounds hf
      rw [utf8ValidUpTo_some hf, List.take_add]
      have hd : (l.drop k).length = l.length - k := by simp
      have hc : Utf8Valid ((l.drop k).take (utf8ValidUpTo (l.drop k))) :=
        ih (l.drop k).length (by omega) (l.drop k) rfl
      have hvle := utf8ValidUpTo_le (l.drop k)
      have hlen_take : (l.take k).length = k := by simp; omega
      have hfirst := utf8First_take_append ((l.drop k).take (utf8ValidUpTo (l.drop k))) hf
      have hdrop : (l.take k ++ (l.drop k).take (utf8ValidUpTo (l.drop k))).drop k
          = (l.drop k).take (utf8ValidUpTo (l.drop k)) := by
        rw [List.drop_append_of_le_length (by omega),
          List.drop_eq_nil_of_le (by omega), List.nil_append]
      rw [Utf8Valid, utf8ValidUpTo_some hfirst, hdrop, hc]
      simp [hlen_take]

theorem utf8ValidUpTo_append_of_valid (a b : List Nat) (ha : Utf8Valid a) :
    utf8ValidUpTo (a ++ b) = a.length + utf8ValidUpTo b := by
  generalize hn : a.length = n
  induction n using Nat.strong_induction_on generalizing a with
  | _ n ih =>
    subst hn
    cases a with
    | nil => simp
    | cons b0 t =>
      cases hf : utf8First (b0 :: t) with
      | none =>
        have h0 := utf8ValidUpTo_none hf
        rw [Utf8Valid, h0] at ha
        simp at ha
      | some k =>
        obtain ⟨hk1, _, hkl⟩ := utf8First_bounds hf
        have hfa := utf8First_append b hf
        have hsplit := utf8ValidUpTo_some hf
        rw [utf8ValidUpTo_some hfa, List.drop_append_of_le_length hkl]
        have hd : ((b0 :: t).drop k).length = (b0 :: t).length - k := by simp
        have hvalid_drop : Utf8Valid ((b0 :: t).drop k) := by
          rw [Utf8Valid] at ha ⊢
          omega
        have := ih ((b0 :: t).drop k).length (by omega) ((b0 :: t).drop k) hvalid_drop rfl
        omega

theorem utf8ValidUpTo_drop_self (l : List Nat) :
    utf8ValidUpTo (l.drop (utf8ValidUpTo l)) = 0 := by
  have h1 := utf8ValidUpTo_take_valid l
  have h2 := utf8ValidUpTo_append_of_valid _ (l.drop (utf8ValidUpTo l)) h1
  rw [List.take_append_drop] at h2
  have h3 := utf8ValidUpTo_le l
  have h4 : (l.take (utf8ValidUpTo l)).length = utf8ValidUpTo l := by simp; omega
  omega

theorem utf8ValidUpTo_leftover_le (l m : List Nat) (h : Utf8Valid (l ++ m)) :
    l.length - utf8ValidUpTo l ≤ 3 := by
  generalize hn : l.length = n
  induction n using Nat.strong_induction_on generalizing l m with
  | _ n ih =>
    subst hn
    cases l with
    | nil => simp
    | cons b0 t =>
      cases hflm : utf8First ((b0 :: t) ++ m) with
      | none =>
        have h0 := utf8ValidUpTo_none hflm
        rw [Utf8Valid, h0] at h
        simp at h
      | some k =>
        obtain ⟨hk1, hk4, hklm⟩ := utf8First_bounds hflm
        by_cases hk : k ≤ (b0 :: t).length
        · have hfl : utf8First (b0 :: t) = some k := by
            have h2 := utf8First_take_append ((b0 :: t).drop k) hflm
            rwa [List.take_append_of_le_length hk, List.take_append_drop] at h2
          rw [utf8ValidUpTo_some hfl]
          have hvalid_drop : Utf8Valid ((b0 :: t).drop k ++ m) := by
            have hs := utf8ValidUpTo_some hflm
            rw [List.drop_append_of_le_length hk] at hs
            rw [Utf8Valid] at h ⊢
            have hle := utf8ValidUpTo_le ((b0 :: t).drop k ++ m)
            simp only [List.length_append] at *
            have hd : ((b0 :: t).drop k).length = (b0 :: t).length - k := by simp
            omega
          have hd : ((b0 :: t).drop k).length = (b0 :: t).length - k := by simp
          have := ih ((b0 :: t).drop k).length (by omega) ((b0 :: t).drop k) m hvalid_drop rfl
          omega
        · have hle := utf8ValidUpTo_le (b0 :: t)
          omega

/-! ### The output pump loop (pty.rs:437-463)

`pumpStep` models one `Ok(n)` iteration of the reader thread: the new
bytes are appended to `utf8_buf`, the longest valid-UTF-8 prefix is
emitted as a chunk when nonempty (`if valid_up_to > 0`), and the rest
(`split_off`) is retained for the next read. -/

def pumpStep (carry bytes : List Nat) : List (List Nat) × List Nat :=
  let buf := carry ++ bytes
  let v := utf8ValidUpTo buf
  (if 0 < v then [buf.take v] else [], buf.drop v)

/-- Fold `pumpStep` over a sequence of reads, collecting emitted chunks
and the final carry-over buffer. -/
def pumpRun : List Nat → List (List Nat) → List (List Nat) × List Nat
  | carry, [] => ([], carry)
  | carry, r :: rs =>
    let s := pumpStep carry r
    let rest := pumpRun s.2 rs
    (s.1 ++ rest.1, rest.2)

/-- The pump started with an empty `utf8_buf`, as in the reader thread. -/
def pump (reads : List (List Nat)) : List (List Nat) × List Nat := pumpRun [] reads

theorem pumpStep_flatten (c r : List Nat) :
    (pumpStep c r).1.flatten = (c ++ r).take (utf8ValidUpTo (c ++ r)) := by
  by_cases h : 0 < utf8ValidUpTo (c ++ r)
  · simp [pumpStep, h]
  · have h0 : utf8ValidUpTo (c ++ r) = 0 := by omega
    simp [pumpStep, h, h0]

theorem pumpRun_flatten :
    ∀ (reads : List (List Nat)) (carry : List Nat),
      (pumpRun carry reads).1.flatten ++ (pumpRun carry reads).2 = carry ++ reads.flatten := by
  intro reads
  induction reads with
  | nil => intro c; simp [pumpRun]
  | cons r rs ih =>
    intro c
    simp only [pumpRun]
    rw [List.flatten_append, List.append_assoc, ih, pumpStep_flatten]
    have h2 : (pumpStep c r).2 = (c ++ r).drop (utf8ValidUpTo (c ++ r)) := rfl
    rw [h2, ← List.append_assoc, List.take_append_drop]
    simp

theorem pumpRun_chunks_valid :
    ∀ (reads : List (List Nat)) (carry : List Nat) (c : List Nat),
      c ∈ (pumpRun carry reads).1 → Utf8Valid c ∧ c ≠ [] := by
  intro reads
  induction reads with
  | nil => intro carry c hc; simp [pumpRun] at hc
  | cons r rs ih =>
    intro carry c hc
    simp only [pumpRun, List.mem_append] at hc
    cases hc with
    | inl h =>
      by_cases hv : 0 < utf8ValidUpTo (carry ++ r)
      · simp [pumpStep, hv] at h
        subst h
        refine ⟨utf8ValidUpTo_take_valid _, ?_⟩
        intro hnil
        have h0 : ((carry ++ r).take (utf8ValidUpTo (carry ++ r))).length = 0 := by
          rw [hnil]; rfl
        rw [List.length_take] at h0
        have hle := utf8ValidUpTo_le (carry ++ r)
        omega
      · simp [pumpStep, hv] at h
    | inr h => exact ih _ _ h

theorem pumpRun_carry_validUpTo :
    ∀ (reads : List (List Nat)) (carry : List Nat), utf8ValidUpTo carry = 0 →
      utf8ValidUpTo (pumpRun carry reads).2 = 0 := by
  intro reads
  induction reads with
  | nil => intro c h; exact h
  | cons r rs ih =>
    intro c h
    simp only [pumpRun]
    exact ih _ (utf8ValidUpTo_drop_self (c ++ r))

theorem utf8Valid_flatten_of_chunks :
    ∀ cs : List (List Nat), (∀ c ∈ cs, Utf8Valid c) → Utf8Valid cs.flatten := by
  intro cs
  induction cs with
  | nil => intro _; rfl
  | cons c cs ih =>
    intro h
    have hc := h c (by simp)
    have hcs := ih (fun x hx => h x (by simp [hx]))
    rw [List.flatten_cons, Utf8Valid, utf8ValidUpTo_append_of_valid c cs.flatten hc, hcs]
    simp

/-- **C1**: for every sequence of byte buffers delivered by successive
reads whose concatenation is (decodable) UTF-8, the concatenation of the
emitted text chunks equals the concatenated input bytes (no byte dropped
or duplicated, and the final carry is empty), every emitted chunk is
independently valid nonempty UTF-8, and after each read at most 3
incomplete bytes are retained in the carry-over buffer. -/
theorem c1_pump_utf8_chunking (reads : List (List Nat)) (hv : Utf8Valid reads.flatten) :
    (pump reads).1.flatten = reads.flatten ∧
    (pump reads).2 = [] ∧
    (∀ c ∈ (pump reads).1, Utf8Valid c ∧ c ≠ []) ∧
    (∀ k, ((pump (reads.take k)).2).length ≤ 3) := by
  have hflat : (pump reads).1.flatten ++ (pump reads).2 = reads.flatten := by
    simpa using pumpRun_flatten reads []
  have hchunks : ∀ c ∈ (pump reads).1, Utf8Valid c ∧ c ≠ [] :=
    fun c hc => pumpRun_chunks_valid reads [] c hc
  have hcarry0 : utf8ValidUpTo (pump reads).2 = 0 := pumpRun_carry_validUpTo reads [] rfl
  have hjoinvalid : Utf8Valid (pump reads).1.flatten :=
    utf8Valid_flatten_of_chunks _ (fun c hc => (hchunks c hc).1)
  have hnil : (pump reads).2 = [] := by
    have hv2 : Utf8Valid ((pump reads).1.flatten ++ (pump reads).2) := by
      rw [hflat]; exact hv
    rw [Utf8Valid, utf8ValidUpTo_append_of_valid _ _ hjoinvalid, hcarry0,
      List.length_append] at hv2
    have hlen0 : ((pump reads).2).length = 0 := by omega
    exact List.length_eq_zero.mp hlen0
  refine ⟨?_, hnil, hchunks, ?_⟩
  · rw [← hflat, hnil, List.append_nil]
  · intro k
    have hs : (pump (reads.take k)).1.flatten ++ (pump (reads.take k)).2
        = (reads.take k).flatten := by
      simpa using pumpRun_flatten (reads.take k) []
    have hcar0 : utf8ValidUpTo (pump (reads.take k)).2 = 0 :=
      pumpRun_carry_validUpTo _ [] rfl
    have hjv : Utf8Valid (pump (reads.take k)).1.flatten :=
      utf8Valid_flatten_of_chunks _
        (fun c hc => (pumpRun_chunks_valid _ [] c hc).1)
    have hvk : Utf8Valid ((reads.take k).flatten ++ (reads.drop k).flatten) := by
      rw [← List.flatten_append, List.take_append_drop]; exact hv
    have hlo := utf8ValidUpTo_leftover_le ((reads.take k).flatten)
      ((reads.drop k).flatten) hvk
    have heq : utf8ValidUpTo ((reads.take k).flatten)
        = (pump (reads.take k)).1.flatten.length := by
      rw [← hs, utf8ValidUpTo_append_of_valid _ _ hjv, hcar0]
      omega
    have hlen : ((reads.take k).flatten).length
        = (pump (reads.take k)).1.flatten.length + ((pump (reads.take k)).2).length := by
      rw [← hs, List.length_append]
    omega

/-- Witness for C1 at the spec's example: the bytes of `"café"` split as
`["caf\xC3", "\xA9"]`. -/
theorem c1_pump_utf8_chunking_witness :
    Utf8Valid ([[0x63, 0x61, 0x66, 0xC3], [0xA9]] : List (List Nat)).flatten ∧
    ((pump [[0x63, 0x61, 0x66, 0xC3], [0xA9]]).1.flatten
        = ([[0x63, 0x61, 0x66, 0xC3], [0xA9]] : List (List Nat)).flatten ∧
      (pump [[0x63, 0x61, 0x66, 0xC3], [0xA9]]).2 = [] ∧
      (∀ c ∈ (pump [[0x63, 0x61, 0x66, 0xC3], [0xA9]]).1, Utf8Valid c ∧ c ≠ []) ∧
      (∀ k, ((pump (([[0x63, 0x61, 0x66, 0xC3], [0xA9]] : List (List Nat)).take k)).2).length ≤ 3)) :=
  ⟨by decide, c1_pump_utf8_chunking [[0x63, 0x61, 0x66, 0xC3], [0xA9]] (by decide)⟩

/-! ## Registry model (pty.rs:113-122, state.rs:53-56)

`state.pty_sessions`, `PTY_WRITERS` and `PTY_MASTERS` are three
independent maps keyed by the session id string.  Each is modelled as an
association list; `tblInsert` replaces any existing binding, like
`HashMap::insert`, and `tblRemove` mirrors `HashMap::remove`. -/

/-- state.rs `PtySession`. -/
structure PtySession where
  worktree_id : String
  child_pid : Nat
deriving DecidableEq, Repr

def tblLookup {α : Type} (t : List (String × α)) (k : String) : Option α :=
  (t.find? (fun e => e.1 == k)).map Prod.snd

def tblRemove {α : Type} (t : List (String × α)) (k : String) : List (String × α) :=
  t.filter (fun e => e.1 != k)

def tblInsert {α : Type} (t : List (String × α)) (k : String) (v : α) : List (String × α) :=
  (k, v) :: tblRemove t k

/-- The three process-wide tables. -/
structure Registries where
  pty_sessions : List (String × PtySession)
  pty_writers : List (String × Unit)
  pty_masters : List (String × Unit)
deriving DecidableEq, Repr

theorem tblLookup_insert_self {α : Type} (t : List (String × α)) (k : String) (v : α) :
    tblLookup (tblInsert t k v) k = some v := by
  simp [tblLookup, tblInsert, List.find?]

theorem tblLookup_remove_self {α : Type} (t : List (String × α)) (k : String) :
    tblLookup (tblRemove t k) k = none := by
  induction t with
  | nil => rfl
  | cons e rest ih =>
    by_cases h : e.1 = k
    · simp [tblRemove, tblLookup, h]
    · simp [tblRemove, tblLookup, List.find?, h]

theorem tblRemove_of_lookup_none {α : Type} (t : List (String × α)) (k : String)
    (h : tblLookup t k = none) : tblRemove t k = t := by
  induction t with
  | nil => rfl
  | cons e rest ih =>
    by_cases he : e.1 = k
    · simp [tblLookup, List.find?, he] at h
    · have hbeq : (e.1 == k) = false := by simpa using he
      have hrest : tblLookup rest k = none := by
        simp only [tblLookup, List.find?, hbeq] at h
        exact h
      have hr := ih hrest
      simp only [tblRemove] at hr
      simp only [tblRemove, List.filter_cons,
        show (e.1 != k) = true by simp [bne, hbeq], if_true, hr]

/-! ## spawn_pty registry effects (pty.rs:165-381)

`spawn_pty` has four fallible steps — `openpty` (pty.rs:178), the child
spawn (pty.rs:348), `take_writer` (pty.rs:367) and `try_clone_reader`
(pty.rs:368) — interleaved with the registry inserts: the master is
inserted (pty.rs:360) *before* the writer and reader handles are
obtained, and the writer and session entries are inserted after
(pty.rs:371, 381).  The success/failure of each step is a parameter. -/

structure SpawnOutcomes where
  openpty_ok : Bool
  spawn_ok : Bool
  take_writer_ok : Bool
  clone_reader_ok : Bool
deriving DecidableEq, Repr

/-- Registry effects of `spawn_pty`: returns the final registries and
`some pty_id` on success, `none` when the call returns an error. -/
def spawn_pty (o : SpawnOutcomes) (pty_id worktree_id : String) (child_pid : Nat)
    (st : Registries) : Registries × Option String :=
  if !o.openpty_ok then (st, none)
  else if !o.spawn_ok then (st, none)
  else
    let st1 := { st with pty_masters := tblInsert st.pty_masters pty_id () }
    if !o.take_writer_ok then (st1, none)
    else if !o.clone_reader_ok then (st1, none)
    else
      let st2 := { st1 with pty_writers := tblInsert st1.pty_writers pty_id () }
      let st3 := { st2 with
        pty_sessions := tblInsert st2.pty_sessions pty_id ⟨worktree_id, child_pid⟩ }
      (st3, some pty_id)

/-- **C2 counterexample**: a spawn whose `take_writer` step fails returns
an error but leaves the freshly inserted master entry in `PTY_MASTERS`,
so the master table is *not* unchanged. -/
theorem c2_spawn_counterexample :
    (spawn_pty ⟨true, true, false, true⟩ "s1" "w1" 42 ⟨[], [], []⟩).2 = none ∧
    (spawn_pty ⟨true, true, false, true⟩ "s1" "w1" 42 ⟨[], [], []⟩).1.pty_masters
      ≠ ([] : List (String × Unit)) := by
  constructor
  · rfl
  · intro h
    simp [spawn_pty, tblInsert, tblRemove] at h

/-- **C2 (amended)**: on any failing spawn the session and writer tables
are unchanged; PTY-allocation and child-spawn failures leave all three
tables unchanged; but when obtaining the writer or reader handle fails,
the just-inserted master entry remains. -/
theorem c2_spawn_error_registry (o : SpawnOutcomes) (id wt : String) (pid : Nat)
    (st : Registries) (herr : (spawn_pty o id wt pid st).2 = none) :
    (spawn_pty o id wt pid st).1.pty_sessions = st.pty_sessions ∧
    (spawn_pty o id wt pid st).1.pty_writers = st.pty_writers ∧
    ((o.openpty_ok = false ∨ o.spawn_ok = false) → (spawn_pty o id wt pid st).1 = st) ∧
    (o.openpty_ok = true → o.spawn_ok = true →
      (spawn_pty o id wt pid st).1.pty_masters = tblInsert st.pty_masters id ()) := by
  obtain ⟨o1, o2, o3, o4⟩ := o
  cases o1 <;> cases o2 <;> cases o3 <;> cases o4 <;> simp_all [spawn_pty]

/-- Witness for C2's amended theorem at a concrete failing spawn. -/
theorem c2_spawn_error_registry_witness :
    (spawn_pty ⟨true, true, true, false⟩ "s1" "w1" 7 ⟨[], [], []⟩).2 = none ∧
    ((spawn_pty ⟨true, true, true, false⟩ "s1" "w1" 7 ⟨[], [], []⟩).1.pty_sessions = [] ∧
      (spawn_pty ⟨true, true, true, false⟩ "s1" "w1" 7 ⟨[], [], []⟩).1.pty_writers = [] ∧
      ((true = false ∨ true = false) →
        (spawn_pty ⟨true, true, true, false⟩ "s1" "w1" 7 ⟨[], [], []⟩).1
          = (⟨[], [], []⟩ : Registries)) ∧
      (true = true → true = true →
        (spawn_pty ⟨true, true, true, false⟩ "s1" "w1" 7 ⟨[], [], []⟩).1.pty_masters
          = tblInsert [] "s1" ())) :=
  ⟨rfl, c2_spawn_error_registry ⟨true, true, true, false⟩ "s1" "w1" 7 ⟨[], [], []⟩ rfl⟩

/-! ## Signal cascade (pty.rs:535-630) and write/resize (pty.rs:505-533)

Signals actually attempted via `libc::kill` are recorded as a list of
`(target, signal)` pairs.  `get_child_pids` shells out to `pgrep -P`
recursively; the direct-children relation is an oracle and the
recursion is fuelled (the OS process tree is finite and acyclic). -/

inductive Sig where
  | sigint
  | sigterm
  | sigkill
  | sighup
deriving DecidableEq, Repr

/-- A `libc::kill` target: a whole process group (negative pid) or a
single process. -/
inductive Target where
  | group (pid : Nat)
  | proc (pid : Nat)
deriving DecidableEq, Repr

inductive PtyError where
  | Pty (msg : String)
  | Io
  | SessionNotFound (id : String)
deriving DecidableEq, Repr

/-- Environment oracles: which pids are alive, whether a group signal
succeeds, the direct children of a pid, and a recursion bound. -/
structure SigEnv where
  groupKillOk : Nat → Bool
  children : Nat → List Nat
  fuel : Nat

/-- pty.rs:685-707 `get_child_pids`: recursively collect descendants,
each child's own descendants listed before the child itself. -/
def get_child_pids (children : Nat → List Nat) : Nat → Nat → List Nat
  | 0, _ => []
  | fuel + 1, pid =>
    (children pid).foldr
      (fun c acc => get_child_pids children fuel c ++ c :: acc) []

/-- pty.rs:537-561 `interrupt_pty`: SIGINT the process group, falling
back to the direct pid if the group signal fails; `Ok` even when the
session is missing. -/
def interrupt_pty (env : SigEnv) (st : Registries) (id : String) :
    Except PtyError Unit × List (Target × Sig) :=
  match tblLookup st.pty_sessions id with
  | none => (.ok (), [])
  | some s =>
    if env.groupKillOk s.child_pid then
      (.ok (), [(.group s.child_pid, .sigint)])
    else
      (.ok (), [(.group s.child_pid, .sigint), (.proc s.child_pid, .sigint)])

/-- pty.rs:571-593 `kill_pty`: SIGTERM every descendant then the root;
registry state is left for the pty-exit event to clean up. -/
def kill_pty (env : SigEnv) (st : Registries) (id : String) :
    Except PtyError Unit × Registries × List (Target × Sig) :=
  match tblLookup st.pty_sessions id with
  | none => (.ok (), st, [])
  | some s =>
    let pids := get_child_pids env.children env.fuel s.child_pid ++ [s.child_pid]
    (.ok (), st, pids.map (fun p => (.proc p, .sigterm)))

/-- pty.rs:604-630 `force_kill_pty`: SIGKILL every descendant then the
root, then remove the session from all three tables. -/
def force_kill_pty (env : SigEnv) (st : Registries) (id : String) :
    Except PtyError Unit × Registries × List (Target × Sig) :=
  match tblLookup st.pty_sessions id with
  | none =>
    (.ok (), { pty_sessions := tblRemove st.pty_sessions id,
               pty_writers := tblRemove st.pty_writers id,
               pty_masters := tblRemove st.pty_masters id }, [])
  | some s =>
    let pids := get_child_pids env.children env.fuel s.child_pid ++ [s.child_pid]
    (.ok (), { pty_sessions := tblRemove st.pty_sessions id,
               pty_writers := tblRemove st.pty_writers id,
               pty_masters := tblRemove st.pty_masters id },
      pids.map (fun p => (.proc p, .sigkill)))

/-- pty.rs:505-515 `write_to_pty`: look up the writer handle, fail with
`SessionNotFound` when absent, otherwise the write may IO-fail. -/
def write_to_pty (writeOk : Bool) (st : Registries) (id : String) :
    Except PtyError Unit :=
  match tblLookup st.pty_writers id with
  | none => .error (.SessionNotFound id)
  | some _ => if writeOk then .ok () else .error .Io

/-- pty.rs:517-533 `resize_pty`: look up the master handle, fail with
`SessionNotFound` when absent. -/
def resize_pty (resizeOk : Bool) (st : Registries) (id : String) :
    Except PtyError Unit :=
  match tblLookup st.pty_masters id with
  | none => .error (.SessionNotFound id)
  | some _ => if resizeOk then .ok () else .error (.Pty "resize")

/-- **C5**: after `force_kill_pty id` returns, the id is absent from the
session, writer and master tables, and subsequent `kill_pty id` /
`interrupt_pty id` send no signal at all — no weaker tier ever follows a
completed ForceKill. -/
theorem c5_force_kill_monotonic (env env2 : SigEnv) (st : Registries) (id : String) :
    tblLookup (force_kill_pty env st id).2.1.pty_sessions id = none ∧
    tblLookup (force_kill_pty env st id).2.1.pty_writers id = none ∧
    tblLookup (force_kill_pty env st id).2.1.pty_masters id = none ∧
    (kill_pty env2 (force_kill_pty env st id).2.1 id).2.2 = [] ∧
    (interrupt_pty env2 (force_kill_pty env st id).2.1 id).2 = [] := by
  have hs : (force_kill_pty env st id).2.1.pty_sessions = tblRemove st.pty_sessions id := by
    unfold force_kill_pty
    cases tblLookup st.pty_sessions id <;> rfl
  have hw : (force_kill_pty env st id).2.1.pty_writers = tblRemove st.pty_writers id := by
    unfold force_kill_pty
    cases tblLookup st.pty_sessions id <;> rfl
  have hm : (force_kill_pty env st id).2.1.pty_masters = tblRemove st.pty_masters id := by
    unfold force_kill_pty
    cases tblLookup st.pty_sessions id <;> rfl
  have habs : tblLookup (force_kill_pty env st id).2.1.pty_sessions id = none := by
    rw [hs]; exact tblLookup_remove_self _ _
  refine ⟨habs, ?_, ?_, ?_, ?_⟩
  · rw [hw]; exact tblLookup_remove_self _ _
  · rw [hm]; exact tblLookup_remove_self _ _
  · unfold kill_pty
    rw [habs]
  · unfold interrupt_pty
    rw [habs]

/-- Witness for C5 at a concrete one-session registry. -/
theorem c5_force_kill_monotonic_witness :
    tblLookup (force_kill_pty ⟨fun _ => true, fun _ => [], 4⟩
        ⟨[("s1", ⟨"w1", 9⟩)], [("s1", ())], [("s1", ())]⟩ "s1").2.1.pty_sessions "s1" = none ∧
    tblLookup (force_kill_pty ⟨fun _ => true, fun _ => [], 4⟩
        ⟨[("s1", ⟨"w1", 9⟩)], [("s1", ())], [("s1", ())]⟩ "s1").2.1.pty_writers "s1" = none ∧
    tblLookup (force_kill_pty ⟨fun _ => true, fun _ => [], 4⟩
        ⟨[("s1", ⟨"w1", 9⟩)], [("s1", ())], [("s1", ())]⟩ "s1").2.1.pty_masters "s1" = none ∧
    (kill_pty ⟨fun _ => true, fun _ => [], 4⟩ (force_kill_pty ⟨fun _ => true, fun _ => [], 4⟩
        ⟨[("s1", ⟨"w1", 9⟩)], [("s1", ())], [("s1", ())]⟩ "s1").2.1 "s1").2.2 = [] ∧
    (interrupt_pty ⟨fun _ => true, fun _ => [], 4⟩ (force_kill_pty ⟨fun _ => true, fun _ => [], 4⟩
        ⟨[("s1", ⟨"w1", 9⟩)], [("s1", ())], [("s1", ())]⟩ "s1").2.1 "s1").2 = [] :=
  c5_force_kill_monotonic ⟨fun _ => true, fun _ => [], 4⟩ ⟨fun _ => true, fun _ => [], 4⟩
    ⟨[("s1", ⟨"w1", 9⟩)], [("s1", ())], [("s1", ())]⟩ "s1"

/-- **C9**: on a session id with no registry entry, the kill family
(`interrupt_pty`, `kill_pty`, `force_kill_pty`) returns `Ok` without
sending any signal and without changing the registries, while
`write_to_pty` and `resize_pty` return `SessionNotFound`. -/
theorem c9_missing_session (env : SigEnv) (wOk rOk : Bool) (st : Registries) (id : String)
    (hs : tblLookup st.pty_sessions id = none)
    (hw : tblLookup st.pty_writers id = none)
    (hm : tblLookup st.pty_masters id = none) :
    interrupt_pty env st id = (.ok (), []) ∧
    kill_pty env st id = (.ok (), st, []) ∧
    force_kill_pty env st id = (.ok (), st, []) ∧
    write_to_pty wOk st id = .error (.SessionNotFound id) ∧
    resize_pty rOk st id = .error (.SessionNotFound id) := by
  refine ⟨?_, ?_, ?_, ?_, ?_⟩
  · unfold interrupt_pty
    rw [hs]
  · unfold kill_pty
    rw [hs]
  · unfold force_kill_pty
    rw [hs, tblRemove_of_lookup_none _ _ hs, tblRemove_of_lookup_none _ _ hw,
      tblRemove_of_lookup_none _ _ hm]
  · unfold write_to_pty
    rw [hw]
  · unfold resize_pty
    rw [hm]

/-- Witness for C9 on the empty registries. -/
theorem c9_missing_session_witness :
    tblLookup (α := PtySession) [] "nonexistent-pty-id" = none ∧
    (interrupt_pty ⟨fun _ => true, fun _ => [], 4⟩ ⟨[], [], []⟩ "nonexistent-pty-id"
        = (.ok (), []) ∧
      kill_pty ⟨fun _ => true, fun _ => [], 4⟩ ⟨[], [], []⟩ "nonexistent-pty-id"
        = (.ok (), ⟨[], [], []⟩, []) ∧
      force_kill_pty ⟨fun _ => true, fun _ => [], 4⟩ ⟨[], [], []⟩ "nonexistent-pty-id"
        = (.ok (), ⟨[], [], []⟩, []) ∧
      write_to_pty true ⟨[], [], []⟩ "nonexistent-pty-id"
        = .error (.SessionNotFound "nonexistent-pty-id") ∧
      resize_pty true ⟨[], [], []⟩ "nonexistent-pty-id"
        = .error (.SessionNotFound "nonexistent-pty-id")) :=
  ⟨rfl, c9_missing_session ⟨fun _ => true, fun _ => [], 4⟩ true true ⟨[], [], []⟩
    "nonexistent-pty-id" rfl rfl rfl⟩

/-! ## shutdown_all_ptys (pty.rs:711-815)

The cascade checks liveness at three points in time (collection/SIGHUP,
after the first grace sleep, after the second); these are the
`alive0/alive1/alive2` oracles.  `SHUTDOWN_IN_PROGRESS` (pty.rs:121) is
an explicit `flag` input; the code only ever writes it with
`swap(true)` (pty.rs:716) and never resets it, so the returned flag is
the value every later call observes. -/

structure ShutdownEnv where
  alive0 : Nat → Bool
  alive1 : Nat → Bool
  alive2 : Nat → Bool
  children : Nat → List Nat
  fuel : Nat

/-- pty.rs:747-764: per-session pid collection — skip dead/zero roots,
append each root's live descendants then the root itself. -/
def sessionPids (env : ShutdownEnv) : List (String × PtySession) → List Nat
  | [] => []
  | (_, s) :: rest =>
    (if s.child_pid = 0 || !env.alive0 s.child_pid then []
     else (get_child_pids env.children env.fuel s.child_pid).filter env.alive0
       ++ [s.child_pid])
    ++ sessionPids env rest

/-- pty.rs:766-768: de-duplicate preserving first occurrences. -/
def dedupFirst (seen : List Nat) : List Nat → List Nat
  | [] => []
  | p :: rest =>
    if seen.contains p then dedupFirst seen rest
    else p :: dedupFirst (p :: seen) rest

/-- pty.rs:805-809: remove every session id from all three tables. -/
def clearSessions : Registries → List (String × PtySession) → Registries
  | st, [] => st
  | st, (id, _) :: rest =>
    clearSessions
      { pty_sessions := tblRemove st.pty_sessions id,
        pty_writers := tblRemove st.pty_writers id,
        pty_masters := tblRemove st.pty_masters id } rest

/-- pty.rs:712-815 `shutdown_all_ptys`.  Output: the (never-cleared)
in-progress flag, the final registries, the emitted `shutdown-progress`
phases in order, and the signals sent. -/
def shutdown_all_ptys (env : ShutdownEnv) (flag : Bool) (st : Registries) :
    Bool × Registries × List String × List (Nat × Sig) :=
  if flag then (true, st, [], [])
  else
    let sessions := st.pty_sessions
    if sessions.isEmpty then (true, st, ["complete"], [])
    else
      let all_pids := dedupFirst [] (sessionPids env sessions)
      let sighups := (all_pids.filter env.alive0).map (fun p => (p, Sig.sighup))
      let rem1 := all_pids.filter env.alive1
      let sigterms := rem1.map (fun p => (p, Sig.sigterm))
      let rem2 := all_pids.filter env.alive2
      let sigkills := rem2.map (fun p => (p, Sig.sigkill))
      let events := ["starting", "signaling"]
        ++ (if rem2.isEmpty then [] else ["signaling"]) ++ ["complete"]
      (true, clearSessions st sessions, events, sighups ++ sigterms ++ sigkills)

/-- **C6**: running `shutdown_all_ptys` twice starting from a clear
flag: the second invocation emits no events and sends no signals, and
across both runs exactly one "complete" event is produced (the first
run emits exactly one "complete" in every branch). -/
theorem c6_shutdown_idempotent (env1 env2 : ShutdownEnv) (st st2 : Registries) :
    (shutdown_all_ptys env2 (shutdown_all_ptys env1 false st).1 st2).2.2.1 = [] ∧
    (shutdown_all_ptys env2 (shutdown_all_ptys env1 false st).1 st2).2.2.2 = [] ∧
    ((shutdown_all_ptys env1 false st).2.2.1
      ++ (shutdown_all_ptys env2 (shutdown_all_ptys env1 false st).1 st2).2.2.1).count
        "complete" = 1 := by
  have hflag : (shutdown_all_ptys env1 false st).1 = true := by
    unfold shutdown_all_ptys
    by_cases h : st.pty_sessions.isEmpty <;> simp [h]
  have hsecond : shutdown_all_ptys env2 (shutdown_all_ptys env1 false st).1 st2
      = (true, st2, [], []) := by
    rw [hflag]
    rfl
  have hones : ((shutdown_all_ptys env1 false st).2.2.1).count "complete" = 1 := by
    unfold shutdown_all_ptys
    by_cases h : st.pty_sessions.isEmpty
    · simp [h]
    · by_cases h2 : (dedupFirst []
          (sessionPids env1 st.pty_sessions)).filter env1.alive2 |>.isEmpty
      · simp [h, h2, List.count_cons, List.count_singleton]
      · simp [h, h2, List.count_cons, List.count_singleton]
  rw [hsecond]
  simpa using hones

/-- Witness instantiating C6 at a concrete one-session registry. -/
theorem c6_shutdown_idempotent_witness :
    (shutdown_all_ptys ⟨fun _ => false, fun _ => false, fun _ => false, fun _ => [], 4⟩
      (shutdown_all_ptys ⟨fun _ => false, fun _ => false, fun _ => false, fun _ => [], 4⟩
        false ⟨[("s1", ⟨"w1", 5⟩)], [("s1", ())], [("s1", ())]⟩).1
      ⟨[("s1", ⟨"w1", 5⟩)], [("s1", ())], [("s1", ())]⟩).2.2.1 = [] ∧
    (shutdown_all_ptys ⟨fun _ => false, fun _ => false, fun _ => false, fun _ => [], 4⟩
      (shutdown_all_ptys ⟨fun _ => false, fun _ => false, fun _ => false, fun _ => [], 4⟩
        false ⟨[("s1", ⟨"w1", 5⟩)], [("s1", ())], [("s1", ())]⟩).1
      ⟨[("s1", ⟨"w1", 5⟩)], [("s1", ())], [("s1", ())]⟩).2.2.2 = [] ∧
    ((shutdown_all_ptys ⟨fun _ => false, fun _ => false, fun _ => false, fun _ => [], 4⟩
        false ⟨[("s1", ⟨"w1", 5⟩)], [("s1", ())], [("s1", ())]⟩).2.2.1
      ++ (shutdown_all_ptys ⟨fun _ => false, fun _ => false, fun _ => false, fun _ => [], 4⟩
        (shutdown_all_ptys ⟨fun _ => false, fun _ => false, fun _ => false, fun _ => [], 4⟩
          false ⟨[("s1", ⟨"w1", 5⟩)], [("s1", ())], [("s1", ())]⟩).1
        ⟨[("s1", ⟨"w1", 5⟩)], [("s1", ())], [("s1", ())]⟩).2.2.1).count "complete" = 1 :=
  c6_shutdown_idempotent
    ⟨fun _ => false, fun _ => false, fun _ => false, fun _ => [], 4⟩
    ⟨fun _ => false, fun _ => false, fun _ => false, fun _ => [], 4⟩
    ⟨[("s1", ⟨"w1", 5⟩)], [("s1", ())], [("s1", ())]⟩
    ⟨[("s1", ⟨"w1", 5⟩)], [("s1", ())], [("s1", ())]⟩

/-- **C10**: a first `shutdown_all_ptys` that finds zero live sessions
still sets the flag and emits only "complete" with no signals; the flag
is `true` after any invocation, and any later call that observes it is
a pure no-op — no signals, no events (not even "complete"), registries
untouched — even when live sessions exist by then. -/
theorem c10_shutdown_flag_permanent (env1 env2 : ShutdownEnv) (st st2 : Registries)
    (hempty : st.pty_sessions = []) :
    shutdown_all_ptys env1 false st = (true, st, ["complete"], []) ∧
    (∀ env st0 b, (shutdown_all_ptys env b st0).1 = true) ∧
    shutdown_all_ptys env2 true st2 = (true, st2, [], []) := by
  refine ⟨?_, ?_, rfl⟩
  · unfold shutdown_all_ptys
    simp [hempty]
  · intro env st0 b
    unfold shutdown_all_ptys
    cases b with
    | true => rfl
    | false => by_cases h : st0.pty_sessions.isEmpty <;> simp [h]

/-- Witness for C10: empty first registry, second call sees a live
session yet does nothing. -/
theorem c10_shutdown_flag_permanent_witness :
    ([] : List (String × PtySession)) = [] ∧
    (shutdown_all_ptys ⟨fun _ => true, fun _ => true, fun _ => true, fun _ => [], 4⟩
        false ⟨[], [], []⟩ = (true, ⟨[], [], []⟩, ["complete"], []) ∧
      (∀ env st0 b, (shutdown_all_ptys env b st0).1 = true) ∧
      shutdown_all_ptys ⟨fun _ => true, fun _ => true, fun _ => true, fun _ => [], 4⟩
        true ⟨[("s2", ⟨"w2", 11⟩)], [("s2", ())], [("s2", ())]⟩
        = (true, ⟨[("s2", ⟨"w2", 11⟩)], [("s2", ())], [("s2", ())]⟩, [], [])) :=
  ⟨rfl, c10_shutdown_flag_permanent
    ⟨fun _ => true, fun _ => true, fun _ => true, fun _ => [], 4⟩
    ⟨fun _ => true, fun _ => true, fun _ => true, fun _ => [], 4⟩
    ⟨[], [], []⟩ ⟨[("s2", ⟨"w2", 11⟩)], [("s2", ())], [("s2", ())]⟩ rfl⟩

/-! ## Watcher registry (watcher.rs)

Each watcher family keeps a map from key to cancel-channel sender;
registration is modelled by its effect on the key set plus a Bool
telling whether a background task was started.  The config watcher
keeps a single `Option` slot (watcher.rs:330) and `watch_config` begins
by stopping any existing watcher (watcher.rs:343); its slot is
modelled as `Option Nat` with a caller-chosen fresh token for the new
sender. -/

/-- watcher.rs:53-61 `watch_worktree` registration: no-op when the key
is already live, otherwise insert and start the task. -/
def watch_worktree (watchers : List String) (key : String) : List String × Bool :=
  if key ∈ watchers then (watchers, false)
  else (key :: watchers, true)

/-- watcher.rs:185-208 `watch_merge_state` registration: no-op when the
key is live, when the git dir cannot be resolved, or when `MERGE_HEAD`
does not exist; otherwise insert and start. -/
def watch_merge_state (watchers : List String) (key : String)
    (resolveOk markerExists : Bool) : List String × Bool :=
  if key ∈ watchers then (watchers, false)
  else if !resolveOk then (watchers, false)
  else if !markerExists then (watchers, false)
  else (key :: watchers, true)

/-- watcher.rs:263-287 `watch_rebase_state` registration: as for merge,
with the marker being `rebase-merge` or `rebase-apply` existing. -/
def watch_rebase_state (watchers : List String) (key : String)
    (resolveOk rebaseMerge rebaseApply : Bool) : List String × Bool :=
  if key ∈ watchers then (watchers, false)
  else if !resolveOk then (watchers, false)
  else if !rebaseMerge && !rebaseApply then (watchers, false)
  else (key :: watchers, true)

/-- watcher.rs:341-365 `watch_config`: always stop any existing config
watcher first, then start a new task iff there are watch targets. -/
def watch_config (_slot : Option Nat) (targetsNonempty : Bool) (fresh : Nat) :
    Option Nat × Bool :=
  if targetsNonempty then (some fresh, true) else (none, false)

/-- **C4 counterexample**: calling `watch_config` a second time while
the first watcher (token 0) is alive starts a *new* task and replaces
the registry slot — for the config watcher kind, re-registering a live
key is neither "no task started" nor "entry unchanged". -/
theorem c4_register_counterexample :
    (watch_config (some 0) true 1).2 = true ∧
    (watch_config (some 0) true 1).1 ≠ some 0 := by
  constructor
  · rfl
  · intro h
    simp [watch_config] at h

/-- **C4 (amended)**: for the worktree, merge-state and rebase-state
watchers, re-registering a live key is a no-op (registry unchanged, no
task started), the worktree watcher starts a task iff the key is not
live, and merge/rebase start one only when the key is not live (and
their git marker exists); the config watcher instead always cancels any
existing watcher and, when it has watch targets, starts a fresh task
with a new cancel token. -/
theorem c4_register_contract (watchers : List String) (key : String)
    (resolveOk m1 rm ra tne : Bool) (t fresh : Nat)
    (hfresh : fresh ≠ t) :
    (key ∈ watchers →
      watch_worktree watchers key = (watchers, false) ∧
      watch_merge_state watchers key resolveOk m1 = (watchers, false) ∧
      watch_rebase_state watchers key resolveOk rm ra = (watchers, false)) ∧
    ((watch_worktree watchers key).2 = true ↔ key ∉ watchers) ∧
    ((watch_merge_state watchers key resolveOk m1).2 = true →
      key ∉ watchers ∧ m1 = true) ∧
    ((watch_rebase_state watchers key resolveOk rm ra).2 = true →
      key ∉ watchers ∧ (rm || ra) = true) ∧
    (tne = true →
      (watch_config (some t) tne fresh).2 = true ∧
      (watch_config (some t) tne fresh).1 ≠ some t) := by
  refine ⟨?_, ?_, ?_, ?_, ?_⟩
  · intro h
    refine ⟨?_, ?_, ?_⟩ <;>
      simp [watch_worktree, watch_merge_state, watch_rebase_state, h]
  · by_cases h : key ∈ watchers <;> simp [watch_worktree, h]
  · intro h
    by_cases hc : key ∈ watchers
    · simp [watch_merge_state, hc] at h
    · cases resolveOk <;> cases m1 <;> simp_all [watch_merge_state]
  · intro h
    by_cases hc : key ∈ watchers
    · simp [watch_rebase_state, hc] at h
    · cases resolveOk <;> cases rm <;> cases ra <;> simp_all [watch_rebase_state]
  · intro h
    subst h
    refine ⟨rfl, ?_⟩
    simp only [watch_config, if_true]
    intro hct
    exact hfresh (by simpa using hct)

/-- Witness for C4's amended contract at concrete inputs. -/
theorem c4_register_contract_witness :
    (1 : Nat) ≠ 0 ∧
    (("w1" ∈ ["w1"] →
        watch_worktree ["w1"] "w1" = (["w1"], false) ∧
        watch_merge_state ["w1"] "w1" true true = (["w1"], false) ∧
        watch_rebase_state ["w1"] "w1" true true false = (["w1"], false)) ∧
      ((watch_worktree ["w1"] "w1").2 = true ↔ "w1" ∉ ["w1"]) ∧
      ((watch_merge_state ["w1"] "w1" true true).2 = true →
        "w1" ∉ ["w1"] ∧ true = true) ∧
      ((watch_rebase_state ["w1"] "w1" true true false).2 = true →
        "w1" ∉ ["w1"] ∧ (true || false) = true) ∧
      (true = true →
        (watch_config (some 0) true 1).2 = true ∧
        (watch_config (some 0) true 1).1 ≠ some 0)) :=
  ⟨by decide, c4_register_contract ["w1"] "w1" true true true false true 0 1 (by decide)⟩

/-! ### Merge-watcher lifecycle (watcher.rs:213-240)

The spawned thread polls every 500ms: a pending stop signal breaks the
loop with no event; an absent `MERGE_HEAD` emits one `merge-complete`
event and breaks; otherwise it sleeps and polls again.  After the loop
the thread removes its own key.  A tick is `(stopRequested, markerStillExists)`;
the events emitted and whether the loop terminated are returned. -/

def mergeLoopRun : List (Bool × Bool) → List String × Bool
  | [] => ([], false)
  | (stop, marker) :: rest =>
    if stop then ([], true)
    else if !marker then (["merge-complete"], true)
    else mergeLoopRun rest

/-- Registration followed by the polling loop: returns the final
registry key set and the events emitted. -/
def mergeWatcherLifecycle (watchers : List String) (key : String)
    (resolveOk marker0 : Bool) (ticks : List (Bool × Bool)) :
    List String × List String :=
  let r := watch_merge_state watchers key resolveOk marker0
  if r.2 then
    let run := mergeLoopRun ticks
    (if run.2 then r.1.filter (fun k => k != key) else r.1, run.1)
  else (r.1, [])

theorem mergeLoopRun_hits_deletion :
    ∀ pre post, (∀ t ∈ pre, t = (false, true)) →
      mergeLoopRun (pre ++ (false, false) :: post) = (["merge-complete"], true) := by
  intro pre
  induction pre with
  | nil => intro post _; rfl
  | cons t rest ih =>
    intro post hpre
    have ht : t = (false, true) := hpre t (by simp)
    subst ht
    simpa [mergeLoopRun] using ih post (fun x hx => hpre x (by simp [hx]))

theorem filter_ne_of_not_mem (watchers : List String) (key : String)
    (h : key ∉ watchers) :
    watchers.filter (fun k => k != key) = watchers := by
  induction watchers with
  | nil => rfl
  | cons w rest ih =>
    simp only [List.mem_cons, not_or] at h
    have hw : (w != key) = true := by
      simp [bne]
      exact fun he => h.1 he.symm
    simp [List.filter_cons, hw, ih h.2]

/-- **C8**: `watch_merge_state` starts nothing and registers no key when
`MERGE_HEAD` is absent; and a watcher started while the marker exists,
once the marker disappears (no stop signal first), emits exactly one
`merge-complete` event, terminates, and leaves the registry as it was
— its key removed, no further events possible. -/
theorem c8_merge_watcher (watchers : List String) (key : String) (resolveOk : Bool)
    (pre post : List (Bool × Bool))
    (hnotlive : key ∉ watchers)
    (hquiet : ∀ t ∈ pre, t = (false, true)) :
    (∀ ticks, mergeWatcherLifecycle watchers key resolveOk false ticks = (watchers, [])) ∧
    (resolveOk = true →
      mergeWatcherLifecycle watchers key resolveOk true (pre ++ (false, false) :: post)
        = (watchers, ["merge-complete"])) := by
  constructor
  · intro ticks
    by_cases hc : key ∈ watchers <;>
      simp [mergeWatcherLifecycle, watch_merge_state, hc]
  · intro hr
    subst hr
    have hreg : watch_merge_state watchers key true true = (key :: watchers, true) := by
      simp [watch_merge_state, hnotlive]
    have hloop := mergeLoopRun_hits_deletion pre post hquiet
    simp only [mergeWatcherLifecycle, hreg, hloop]
    simp [List.filter_cons, filter_ne_of_not_mem watchers key hnotlive]

/-- Witness for C8: fresh registry, marker deleted on the second poll. -/
theorem c8_merge_watcher_witness :
    "w1" ∉ ([] : List String) ∧
    (∀ t ∈ [((false : Bool), (true : Bool))], t = (false, true)) ∧
    ((∀ ticks, mergeWatcherLifecycle [] "w1" true false ticks = ([], [])) ∧
      (true = true →
        mergeWatcherLifecycle [] "w1" true true
          ([(false, true)] ++ (false, false) :: [])
          = ([], ["merge-complete"]))) :=
  ⟨by decide, by decide,
    c8_merge_watcher [] "w1" true [(false, true)] [] (by decide) (by decide)⟩

/-! ## Readiness heuristic (pty.rs:427-435)

Per `Ok(n)` read the loop adds `n` to `total_bytes` and then emits the
one-shot `pty-ready` event iff it has not been emitted yet and
`total_bytes > 50`.  `readyRun total emitted sizes` returns, for each
read, whether the ready event fired on it. -/

def readyRun : Nat → Bool → List Nat → List Bool
  | _, _, [] => []
  | total, emitted, n :: rest =>
    let total2 := total + n
    let fire := !emitted && decide (total2 > 50)
    fire :: readyRun total2 (emitted || fire) rest

/-- The fire pattern of a fresh session over its sequence of read sizes. -/
def readyFires (reads : List Nat) : List Bool := readyRun 0 false reads

theorem readyRun_emitted_no_fire :
    ∀ (reads : List Nat) (t : Nat), readyRun t true reads = List.replicate reads.length false := by
  intro reads
  induction reads with
  | nil => intro t; rfl
  | cons n rest ih =>
    intro t
    simp [readyRun, ih, List.replicate_succ]

theorem readyRun_count_le_one :
    ∀ (reads : List Nat) (t : Nat) (e : Bool), (readyRun t e reads).count true ≤ 1 := by
  intro reads
  induction reads with
  | nil => intro t e; simp [readyRun]
  | cons n rest ih =>
    intro t e
    simp only [readyRun]
    cases hf : (!e && decide (t + n > 50)) with
    | false => simpa using ih (t + n) (e || false)
    | true =>
      have he : (e || true) = true := by simp
      rw [he, readyRun_emitted_no_fire rest (t + n)]
      simp [List.count_cons, List.count_replicate]

theorem readyRun_getD (reads : List Nat) :
    ∀ (t i : Nat),
      ((readyRun t (decide (50 < t)) reads).getD i false = true ↔
        (i < reads.length ∧ 50 < t + (reads.take (i + 1)).sum ∧
          t + (reads.take i).sum ≤ 50)) := by
  induction reads with
  | nil =>
    intro t i
    simp [readyRun]
  | cons n rest ih =>
    intro t i
    have hmerge : ((decide (50 < t) : Bool) || (!(decide (50 < t)) && decide (t + n > 50)))
        = decide (50 < t + n) := by
      by_cases h1 : 50 < t
      · have h2 : 50 < t + n := by omega
        simp [h1, h2]
      · simp [h1]
    cases i with
    | zero =>
      simp only [readyRun, List.getD_cons_zero, List.take_succ_cons, List.take_zero]
      by_cases h1 : 50 < t <;> (simp [h1]; try omega)
    | succ j =>
      simp only [readyRun, List.getD_cons_succ, List.take_succ_cons, List.length_cons]
      rw [show readyRun (t + n)
            ((decide (50 < t) : Bool) || (!(decide (50 < t)) && decide (t + n > 50))) rest
          = readyRun (t + n) (decide (50 < t + n)) rest by rw [hmerge]]
      rw [ih (t + n) j]
      constructor
      · rintro ⟨h1, h2, h3⟩
        refine ⟨by omega, by simp [List.sum_cons]; omega, by simp [List.sum_cons]; omega⟩
      · rintro ⟨h1, h2, h3⟩
        simp only [List.sum_cons] at h2 h3
        exact ⟨by omega, by omega, by omega⟩

theorem readyRun_all_false_of_small :
    ∀ (reads : List Nat) (t : Nat), t + reads.sum ≤ 50 →
      readyRun t (decide (50 < t)) reads = List.replicate reads.length false := by
  intro reads
  induction reads with
  | nil => intro t _; rfl
  | cons n rest ih =>
    intro t h
    simp only [List.sum_cons] at h
    have h1 : ¬ (t + n > 50) := by omega
    have h2 : (!(decide (50 < t)) && decide (t + n > 50)) = false := by
      simp [h1]
    simp only [readyRun, h2, List.length_cons, List.replicate_succ]
    have h3 : ((decide (50 < t) : Bool) || false) = decide (50 < t + n) := by
      have ht : ¬ 50 < t := by omega
      have htn : ¬ 50 < t + n := by omega
      simp [ht, htn]
    rw [h3, ih (t + n) (by omega)]

/-- **C7**: the ready event fires at most once; it fires on read `i`
exactly when that read makes cumulative output exceed the 50-byte
threshold for the first time; and a session whose total output never
exceeds the threshold (e.g. 2 bytes) never fires it. -/
theorem c7_ready_threshold (reads : List Nat) :
    ((readyFires reads).count true ≤ 1) ∧
    (∀ i, ((readyFires reads).getD i false = true ↔
      (i < reads.length ∧ 50 < (reads.take (i + 1)).sum ∧ (reads.take i).sum ≤ 50))) ∧
    (reads.sum ≤ 50 → (readyFires reads).count true = 0) := by
  refine ⟨readyRun_count_le_one reads 0 false, ?_, ?_⟩
  · intro i
    have := readyRun_getD reads 0 i
    simpa [readyFires] using this
  · intro h
    have := readyRun_all_false_of_small reads 0 (by omega)
    simp only [readyFires]
    rw [show (false : Bool) = decide (50 < 0) by simp, this]
    simp [List.count_replicate]

/-- Witness for C7: scenario A, a 2-byte `printf 'hi'` session — the
sole conjunct hypotheses hold trivially and no ready event fires. -/
theorem c7_ready_threshold_witness :
    ((readyFires [2]).count true ≤ 1) ∧
    (∀ i, ((readyFires [2]).getD i false = true ↔
      (i < ([2] : List Nat).length ∧ 50 < (([2] : List Nat).take (i + 1)).sum ∧
        (([2] : List Nat).take i).sum ≤ 50))) ∧
    (([2] : List Nat).sum ≤ 50 → (readyFires [2]).count true = 0) :=
  c7_ready_threshold [2]

/-! ## Command resolution in spawn_pty (pty.rs:196-299, unix branches)

Rust `&str` values are embedded as `List Char`; `trim`,
`split_whitespace`, `starts_with`/`ends_with` and byte-range slicing
are reproduced on lists.  `Path::is_file` is an oracle. -/

def isWs (c : Char) : Bool := c.isWhitespace

/-- Rust `str::trim`. -/
def trimStr (l : List Char) : List Char :=
  ((l.dropWhile isWs).reverse.dropWhile isWs).reverse

def splitWsAux : List Char → List Char → List (List Char)
  | [], acc => if acc.isEmpty then [] else [acc.reverse]
  | c :: rest, acc =>
    if isWs c then
      (if acc.isEmpty then splitWsAux rest [] else acc.reverse :: splitWsAux rest [])
    else splitWsAux rest (c :: acc)

/-- Rust `str::split_whitespace().collect()`. -/
def split_whitespace (l : List Char) : List (List Char) := splitWsAux l []

/-- pty.rs:202-206: strip one pair of enclosing double quotes when the
trimmed command starts and ends with `"` and has length ≥ 2. -/
def unquote (t : List Char) : List Char :=
  if t.head? = some '"' && t.getLast? = some '"' && decide (2 ≤ t.length) then
    (t.drop 1).dropLast
  else t

/-- Rust `str::ends_with`. -/
def endsWithStr (l s : List Char) : Bool :=
  decide (s.length ≤ l.length) && decide (l.drop (l.length - s.length) = s)

/-- Rust `str::eq_ignore_ascii_case` (shell names are ASCII). -/
def eqIgnoreAsciiCase (a b : List Char) : Bool :=
  decide (a.map Char.toLower = b.map Char.toLower)

/-- pty.rs:199-217: `(executable, args)`.  An empty command maps to
itself; if the whole (quote-stripped) command is an existing file it is
the executable with no args; otherwise split on whitespace. -/
def parseCommand (isFile : List Char → Bool) (command : List Char) :
    List Char × List (List Char) :=
  let trimmed := trimStr command
  if trimmed.isEmpty then (command, [])
  else
    let unq := unquote trimmed
    if isFile unq then (unq, [])
    else
      match split_whitespace trimmed with
      | [] => (trimmed, [])
      | p :: rest => (p, rest)

/-- pty.rs:227 (unix): commands whose head is a known shell run via
`/usr/bin/env`. -/
def shell_commands : List (List Char) :=
  ["fish".toList, "bash".toList, "zsh".toList, "sh".toList]

/-- A spawned child process invocation (program, argv tail, cwd). -/
structure Cmd where
  program : List Char
  args : List (List Char)
  cwd : List Char
deriving DecidableEq, Repr

/-- pty.rs:238-299 (unix): full command resolution of `spawn_pty`. -/
def resolveSpawnCmd (isFile : List Char → Bool) (userShell : List Char)
    (shellOverride : Option (List Char)) (command worktree_path : List Char) : Cmd :=
  let shell := shellOverride.getD userShell
  let pa := parseCommand isFile command
  let executable := pa.1
  let args := pa.2
  let is_shell_command := shell_commands.any (fun s =>
    eqIgnoreAsciiCase executable s || endsWithStr executable ('/' :: s))
  if command = "shell".toList then
    { program := shell, args := ["-l".toList], cwd := worktree_path }
  else if shellOverride.isSome then
    { program := shell, args := ["-c".toList, command], cwd := worktree_path }
  else if is_shell_command then
    { program := "/usr/bin/env".toList, args := executable :: args, cwd := worktree_path }
  else
    { program := executable, args := args, cwd := worktree_path }

/-- The resolution the spec describes for an explicit command with no
override whose head token is not an existing file, stated from the
spec's words: hand the whole string to the resolved shell. -/
def specShellCResolution (shell command worktree_path : List Char) : Cmd :=
  { program := shell, args := ["-c".toList, command], cwd := worktree_path }

/-- **C3 counterexample**: with no shell override, the explicit command
`echo hello | grep h` (head token `echo`, not an existing file) is NOT
handed to the resolved shell as `shell -c <command>`; the code runs
`echo` directly with the whitespace-split arguments, so the pipe is a
literal argument. -/
theorem c3_resolve_counterexample :
    resolveSpawnCmd (fun _ => false) "/bin/zsh".toList none
        "echo hello | grep h".toList "/tmp/wt".toList
      ≠ specShellCResolution "/bin/zsh".toList "echo hello | grep h".toList
          "/tmp/wt".toList ∧
    resolveSpawnCmd (fun _ => false) "/bin/zsh".toList none
        "echo hello | grep h".toList "/tmp/wt".toList
      = { program := "echo".toList,
          args := ["hello".toList, "|".toList, "grep".toList, "h".toList],
          cwd := "/tmp/wt".toList } := by
  constructor
  · intro h
    exact absurd (congrArg Cmd.program h) (by decide)
  · decide

/-- **C3 (amended)**: for a non-empty explicit command with no shell
override that is not the `"shell"` sentinel, the file check applies to
the whole quote-stripped command (not the head token) and yields it as
the executable with no arguments; otherwise the command is whitespace-
split (not quote-aware) into head and arguments, and the child runs the
head directly — via `/usr/bin/env` when it names a known shell — with
the whole string handed to `shell -c` only when a per-call override is
given. -/
theorem c3_resolve_behavior (isFile : List Char → Bool)
    (userShell ovr command wt : List Char)
    (hns : command ≠ "shell".toList) (hne : (trimStr command).isEmpty = false) :
    ((resolveSpawnCmd isFile userShell none command wt
        = { program := "/usr/bin/env".toList,
            args := (parseCommand isFile command).1 :: (parseCommand isFile command).2,
            cwd := wt }) ∨
      (resolveSpawnCmd isFile userShell none command wt
        = { program := (parseCommand isFile command).1,
            args := (parseCommand isFile command).2, cwd := wt })) ∧
    (resolveSpawnCmd isFile userShell (some ovr) command wt
      = { program := ovr, args := ["-c".toList, command], cwd := wt }) ∧
    (isFile (unquote (trimStr command)) = true →
      parseCommand isFile command = (unquote (trimStr command), [])) ∧
    (isFile (unquote (trimStr command)) = false →
      parseCommand isFile command
        = match split_whitespace (trimStr command) with
          | [] => (trimStr command, [])
          | p :: rest => (p, rest)) := by
  have hns2 : command ≠ ['s', 'h', 'e', 'l', 'l'] := by simpa using hns
  refine ⟨?_, ?_, ?_, ?_⟩
  · by_cases hsc : shell_commands.any (fun s =>
        eqIgnoreAsciiCase (parseCommand isFile command).1 s
          || endsWithStr (parseCommand isFile command).1 ('/' :: s))
    · left
      simp [resolveSpawnCmd, hns2, hsc]
    · right
      simp [resolveSpawnCmd, hns2, hsc]
  · simp [resolveSpawnCmd, hns2]
  · intro hf
    simp [parseCommand, hne, hf]
  · intro hf
    simp [parseCommand, hne, hf]

/-- Witness for C3's amended theorem at the pipe-command example. -/
theorem c3_resolve_behavior_witness :
    "echo hello | grep h".toList ≠ "shell".toList ∧
    (trimStr "echo hello | grep h".toList).isEmpty = false ∧
    (((resolveSpawnCmd (fun _ => false) "/bin/zsh".toList none
          "echo hello | grep h".toList "/tmp/wt".toList
        = { program := "/usr/bin/env".toList,
            args := (parseCommand (fun _ => false) "echo hello | grep h".toList).1
              :: (parseCommand (fun _ => false) "echo hello | grep h".toList).2,
            cwd := "/tmp/wt".toList }) ∨
      (resolveSpawnCmd (fun _ => false) "/bin/zsh".toList none
          "echo hello | grep h".toList "/tmp/wt".toList
        = { program := (parseCommand (fun _ => false) "echo hello | grep h".toList).1,
            args := (parseCommand (fun _ => false) "echo hello | grep h".toList).2,
            cwd := "/tmp/wt".toList })) ∧
    (resolveSpawnCmd (fun _ => false) "/bin/zsh".toList (some "/bin/bash".toList)
        "echo hello | grep h".toList "/tmp/wt".toList
      = { program := "/bin/bash".toList,
          args := ["-c".toList, "echo hello | grep h".toList], cwd := "/tmp/wt".toList }) ∧
    ((fun _ => false) (unquote (trimStr "echo hello | grep h".toList)) = true →
      parseCommand (fun _ => false) "echo hello | grep h".toList
        = (unquote (trimStr "echo hello | grep h".toList), [])) ∧
    ((fun _ => false) (unquote (trimStr "echo hello | grep h".toList)) = false →
      parseCommand (fun _ => false) "echo hello | grep h".toList
        = match split_whitespace (trimStr "echo hello | grep h".toList) with
          | [] => (trimStr "echo hello | grep h".toList, [])
          | p :: rest => (p, rest))) :=
  ⟨by decide, by decide,
    c3_resolve_behavior (fun _ => false) "/bin/zsh".toList "/bin/bash".toList
      "echo hello | grep h".toList "/tmp/wt".toList (by decide) (by decide)⟩

end Shellflow
